import Mathlib

/-!
Verification of the EBR (epoch-based reclamation) engine of this repository.

The repository has two variants of the engine:
  * `src/table/recl.rs`    — registry holds `Arc<Local>`, lazy deregistration via
                             `locals.retain(strong_count > 1)` inside `collect`;
                             `Local` has a `Drop` impl that runs all three queues.
  * `src/spec/x86_64/recl.rs` — registry holds `*const Local`, eager deregistration in
                             `TSLocal::drop`; `Local` has no `Drop` impl.

The embedding below is a sequential shallow embedding:
  * machine integers (`usize`) are `Nat` taken mod `2^64` where wrapping matters
    (`fetch_add` / `fetch_sub` wrap);
  * a `Deferred` parked in a queue is identified by a `Nat` id; "running" a carrier
    appends its id to a run log `ranLog`, which models the observable side effect;
  * the per-`Local` array `[Vec<Deferred>; 3]` is the three lists `q0 q1 q2`; indexing
    with a `usize` epoch is `getBucket` / `setBucket`, whose out-of-range branch
    (a panic in Rust) is proved unreachable from reachable states (claim C8);
  * atomics collapse to plain reads/writes (one thread at a time); the CAS loop of
    `increment_epoch` therefore succeeds on the first iteration, and the re-check
    `start_global_epoch != self.epoch.load(...)` in `collect` always passes;
  * mutex acquire/release order is modelled separately as an event trace
    (`Ev`, `x86CollectTrace`, `tableCollectTrace`) for the lock-ordering claim.
-/

namespace Recl

/-- `usize` modulus on the x86_64 target: words are 64 bits wide. -/
def WORD : Nat := 2 ^ 64

/-- Per-participant state, from `struct Local` (both variants):
`active: AtomicUsize`, `epoch: AtomicUsize`, `deferred: Mutex<[Vec<Deferred>; 3]>`.
The `owned` flag models whether the owning thread's `TSLocal` is still alive, i.e.
whether the registry `Arc` in the table variant has `strong_count > 1`. -/
structure Local where
  active : Nat
  epoch : Nat
  q0 : List Nat
  q1 : List Nat
  q2 : List Nat
  owned : Bool
deriving DecidableEq

/-- `Local::new`: `active` and `epoch` start at 0, all three queues empty. -/
def Local.new : Local :=
  { active := 0, epoch := 0, q0 := [], q1 := [], q2 := [], owned := true }

/-- Read `deferred[i]`. Indices 0,1,2 are the three queues; in Rust an index ≥ 3
would panic, and claim C8 shows every index the code uses stays below 3. -/
def Local.getBucket (l : Local) (i : Nat) : List Nat :=
  match i with
  | 0 => l.q0
  | 1 => l.q1
  | 2 => l.q2
  | _ => []

/-- Write `deferred[i]`. -/
def Local.setBucket (l : Local) (i : Nat) (v : List Nat) : Local :=
  match i with
  | 0 => { l with q0 := v }
  | 1 => { l with q1 := v }
  | 2 => { l with q2 := v }
  | _ => l

/-- `Local::enter_critical`: `fetch_add(1, Relaxed)` on `active` (wrapping); if the
previous value was 0, load the global epoch and store it into the local epoch.
The global epoch is passed explicitly (the source reads it through `self.global`). -/
def Local.enter_critical (ge : Nat) (l : Local) : Local :=
  if l.active = 0 then
    { l with active := (l.active + 1) % WORD, epoch := ge }
  else
    { l with active := (l.active + 1) % WORD }

/-- `Local::exit_critical`, table variant (and x86_64 release build): a single
`fetch_sub(1, Relaxed)`, which wraps on underflow: the new value is
`active − 1 mod 2^64`, written as the equal `(2^64 − 1) + active mod 2^64`. -/
def Local.exit_critical (l : Local) : Local :=
  { l with active := (WORD - 1 + l.active) % WORD }

/-- `Local::exit_critical`, x86_64 variant under `debug_assertions`:
`if self.active.fetch_sub(1, Relaxed) == 0 { panic!(...) }`. `fetch_sub` returns the
previous value and stores the wrapped decrement first; the returned `Bool` is true
when the call panics, and the returned `Local` is the state at that point. -/
def Local.exit_critical_dbg (l : Local) : Local × Bool :=
  let prev := l.active
  ({ l with active := (WORD - 1 + l.active) % WORD }, prev == 0)

/-- `Local::defer`: load the global epoch (Relaxed), lock the deferred mutex
(abort on poison), push onto `deferred[global_epoch]`. -/
def Local.pushDefer (ge : Nat) (l : Local) (id : Nat) : Local :=
  l.setBucket ge (l.getBucket ge ++ [id])

/-- `Local::drop`, table variant only: under the deferred mutex, for i = 0,1,2 take
`deferred[i]` and run every carrier, in order. Returns the ids run, in run order. -/
def Local.dropRun (l : Local) : List Nat :=
  l.q0 ++ l.q1 ++ l.q2

/-- The whole engine state: `Global` (`epoch: AtomicUsize`, `locals: Mutex<Vec<_>>`)
together with the registered `Local`s and the log of carrier ids run so far. -/
structure GlobalState where
  epoch : Nat
  locals : List Local
  ranLog : List Nat
deriving DecidableEq

/-- The state right after `Global::new`: epoch 0, no registered locals. -/
def initState : GlobalState :=
  { epoch := 0, locals := [], ranLog := [] }

/-- `increment_epoch`: CAS loop computing `(current + 1) % 3`. Sequentially the CAS
succeeds on the first iteration. -/
def increment_epoch (e : Nat) : Nat :=
  (e + 1) % 3

/-- The scan gate of `Global::collect` (both variants): the loop over the registry
returns early as soon as it finds a local with `active > 0 && epoch != start_global_epoch`;
the pass proceeds exactly when no registered local satisfies that condition. -/
def scanGate (e0 : Nat) (locals : List Local) : Bool :=
  locals.all fun l => ! (decide (0 < l.active) && decide (l.epoch ≠ e0))

/-- One iteration of the drain loop body of `collect`: lock this local's deferred
mutex, `take`/`replace` `deferred[next]` with an empty vector, unlock, then run every
taken carrier. Returns the drained local and the ids run. -/
def drainLocal (next : Nat) (l : Local) : Local × List Nat :=
  (l.setBucket next [], l.getBucket next)

/-- The full drain loop of `collect` over the registry, in registry order. -/
def drainAll (next : Nat) : List Local → List Local × List Nat
  | [] => ([], [])
  | l :: ls =>
    let d := drainLocal next l
    let rest := drainAll next ls
    (d.1 :: rest.1, d.2 ++ rest.2)

/-- `Global::collect`, x86_64 variant (`src/spec/x86_64/recl.rs`):
load `start_global_epoch` (acquire); lock `locals`; scan the registry, returning if
some local has `active > 0` and a different epoch; `drop(locals)`; re-check the epoch
(always equal sequentially); `increment_epoch`; then for each local take
`deferred[next]` under its mutex, release it, and run the carriers. -/
def Global.collect (s : GlobalState) : GlobalState :=
  let e0 := s.epoch
  if scanGate e0 s.locals then
    let next := increment_epoch e0
    let d := drainAll next s.locals
    { epoch := next, locals := d.1, ranLog := s.ranLog ++ d.2 }
  else
    s

/-- The `locals.retain(|arc| Arc::strong_count(arc) > 1)` sweep at the end of the
table variant's `collect`: entries whose owning thread is gone (`owned = false`) are
removed; dropping the registry's last `Arc` runs `Local::drop`, which executes every
carrier still parked in the local's three queues (`Local.dropRun`). Returns the kept
entries and the ids run, in sweep order. -/
def tableRetain : List Local → List Local × List Nat
  | [] => ([], [])
  | l :: ls =>
    let rest := tableRetain ls
    if l.owned then (l :: rest.1, rest.2)
    else (rest.1, l.dropRun ++ rest.2)

/-- `Global::collect`, table variant (`src/table/recl.rs`), as a state transformer
(the initial `PARTICIPANT_HANDLE` force is modelled by `tableCollectEntry`): same
gate and drain as the x86_64 variant, followed by the retain sweep. The `locals`
mutex guard is held for the whole body; that ordering is captured by
`tableCollectTrace` below. -/
def tableCollect (s : GlobalState) : GlobalState :=
  let e0 := s.epoch
  if scanGate e0 s.locals then
    let next := increment_epoch e0
    let d := drainAll next s.locals
    let r := tableRetain d.1
    { epoch := next, locals := r.1, ranLog := s.ranLog ++ d.2 ++ r.2 }
  else
    s

/-- The first statement of the table variant's `collect`:
`PARTICIPANT_HANDLE.with(|key| UnsyncLazy::force(key))`. Forcing the thread-local
handle on a thread that has none yet runs `TSLocal::new`, which creates a fresh
`Local` and registers it via `Global::add_local`. The `Bool` tracks whether the
calling thread already has a registered handle. -/
def forceHandle : Bool × GlobalState → Bool × GlobalState
  | (false, s) => (true, { s with locals := s.locals ++ [Local.new] })
  | (true, s) => (true, s)

/-- The table variant's `collect` as called (force the caller's handle, then run the
collection body). -/
def tableCollectEntry (p : Bool × GlobalState) : Bool × GlobalState :=
  let q := forceHandle p
  (q.1, tableCollect q.2)

/-- The x86_64 variant's `collect` as called: its body never touches
`PARTICIPANT_HANDLE`, so the caller's registration state is untouched. -/
def x86CollectEntry (p : Bool × GlobalState) : Bool × GlobalState :=
  (p.1, Global.collect p.2)

/-- One iteration of `guardian_thread_fn` (both variants):
`thread::sleep(GUARDIAN_SLEEP_DURATION); gc.collect();`. Sleeping does not change
engine state, so an iteration is exactly one `collect` call. -/
def guardianStepX86 (s : GlobalState) : GlobalState :=
  Global.collect s

/-- One iteration of the table variant's guardian loop. -/
def guardianStepTable (p : Bool × GlobalState) : Bool × GlobalState :=
  tableCollectEntry p

/-- `TSLocal::drop`, x86_64 variant: `global.remove_local(local_ptr)` removes the
local from the registry; the `Box<Local>` is then dropped, and since this variant's
`Local` has no `Drop` impl, every `Deferred` still parked in its queues is dropped
without its `call` being invoked — nothing is appended to the run log. -/
def removeIdx : List Local → Nat → List Local
  | [], _ => []
  | _ :: ls, 0 => ls
  | l :: ls, n + 1 => l :: removeIdx ls n

/-- x86_64 thread teardown: deregistration only; no queue is flushed. -/
def TSLocal.dropX86 (s : GlobalState) (i : Nat) : GlobalState :=
  { s with locals := removeIdx s.locals i }

/-! ### Lock/run event traces of `collect`

For the lock-ordering claim the two `collect` bodies are transcribed a second time,
as the sequence of mutex and `Deferred::run` events they perform. -/

/-- Events of a `collect` pass: acquire/release of the `Global.locals` mutex,
acquire/release of a `Local`'s deferred mutex (tagged by registry position),
running one carrier, the epoch CAS, and the table variant's `PARTICIPANT_HANDLE`
force. -/
inductive Ev where
  | lockLocals
  | unlockLocals
  | lockDef (i : Nat)
  | unlockDef (i : Nat)
  | runC (id : Nat)
  | advance
  | force
deriving DecidableEq

/-- Events of the drain loop (both variants): for each local, lock its deferred
mutex, take `deferred[next]`, drop the guard, then run the taken carriers. -/
def drainTrace (next : Nat) : Nat → List Local → List Ev
  | _, [] => []
  | i, l :: ls =>
    Ev.lockDef i :: Ev.unlockDef i :: (l.getBucket next).map Ev.runC
      ++ drainTrace next (i + 1) ls

/-- Events of the table variant's retain sweep, applied to the already-drained
registry: dropping the last `Arc` of an unowned entry runs `Local::drop`, which
locks that local's deferred mutex and runs every remaining carrier **under it**. -/
def retainTrace : Nat → List Local → List Ev
  | _, [] => []
  | i, l :: ls =>
    (if l.owned then [] else Ev.lockDef i :: (l.dropRun.map Ev.runC) ++ [Ev.unlockDef i])
      ++ retainTrace (i + 1) ls

/-- Event trace of the x86_64 `Global::collect`: the `locals` guard is dropped
(explicit `drop(locals)`) before the epoch advances and before any carrier runs;
on a scan abort the early `return` also drops the guard. -/
def x86CollectTrace (s : GlobalState) : List Ev :=
  if scanGate s.epoch s.locals then
    Ev.lockLocals :: Ev.unlockLocals :: Ev.advance
      :: drainTrace (increment_epoch s.epoch) 0 s.locals
  else
    [Ev.lockLocals, Ev.unlockLocals]

/-- Event trace of the table `Global::collect`: the body first forces the caller's
`PARTICIPANT_HANDLE`; the `locals` guard is acquired before the scan and is dropped
only when the function returns — after the drain loop and the retain sweep — because
the final `locals.retain(...)` still uses it. -/
def tableCollectTrace (s : GlobalState) : List Ev :=
  if scanGate s.epoch s.locals then
    Ev.force :: Ev.lockLocals :: Ev.advance
      :: (drainTrace (increment_epoch s.epoch) 0 s.locals
          ++ retainTrace 0 (drainAll (increment_epoch s.epoch) s.locals).1
          ++ [Ev.unlockLocals])
  else
    [Ev.force, Ev.lockLocals, Ev.unlockLocals]

/-- `noRunUnderLocals h tr` is true when no carrier in `tr` runs while the
`Global.locals` mutex is held; `h` says whether it is held at the start. -/
def noRunUnderLocals : Bool → List Ev → Bool
  | _, [] => true
  | _, Ev.lockLocals :: r => noRunUnderLocals true r
  | _, Ev.unlockLocals :: r => noRunUnderLocals false r
  | h, Ev.runC _ :: r => !h && noRunUnderLocals h r
  | h, _ :: r => noRunUnderLocals h r

/-- `noRunUnderDef h tr` is true when no carrier in `tr` runs while some `Local`'s
deferred mutex is held. -/
def noRunUnderDef : Bool → List Ev → Bool
  | _, [] => true
  | _, Ev.lockDef _ :: r => noRunUnderDef true r
  | _, Ev.unlockDef _ :: r => noRunUnderDef false r
  | h, Ev.runC _ :: r => !h && noRunUnderDef h r
  | h, _ :: r => noRunUnderDef h r

/-! ### `Deferred` — compact closure carrier

The byte-level packing (`ptr::write` of the closure's bits into `task: [usize; 4]`,
or of a fat `Box` pointer) cannot be expressed over `Nat`; the model keeps the
closure as a function together with the `size_of`/`align_of` of its concrete type,
and keeps the branch of `Deferred::new` exactly as in the source. The trampolines
`deferred_exec_internal::<F>` and `deferred_exec_external` read back and invoke
precisely the closure that `new` wrote (the source's safety comment), so `run`
invokes the stored closure once. Observable effects are a state transformer. -/

/-- A concrete Rust callable `F: FnOnce()`: its `size_of`, `align_of`, and its
observable effect on a state of type `σ`. -/
structure Callable (σ : Type) where
  size : Nat
  align : Nat
  call : σ → σ

/-- Which trampoline a `Deferred` carries: `internal` for the in-payload copy,
`external` for the boxed fallback. Both hold the callable `new` stored. -/
inductive Carrier (σ : Type) where
  | internal (f : σ → σ)
  | external (f : σ → σ)

/-- `struct Deferred { call: fn([usize; 4]), task: [usize; 4] }`, with the paired
trampoline-plus-payload abstracted to the carrier it decodes to. -/
structure Deferred (σ : Type) where
  carrier : Carrier σ

/-- `size_of::<[usize; 4]>()` on x86_64. -/
def payloadSize : Nat := 4 * 8

/-- `align_of::<[usize; 4]>()` on x86_64. -/
def payloadAlign : Nat := 8

/-- `Deferred::new(f)`: if `size_of::<F>() < size_of::<[usize; 4]>()` and
`align_of::<F>() <= align_of::<[usize; 4]>()`, write the closure into the payload
and use `deferred_exec_internal::<F>`; otherwise box it and use
`deferred_exec_external`. -/
def Deferred.new (c : Callable σ) : Deferred σ :=
  if c.size < payloadSize ∧ c.align ≤ payloadAlign then
    ⟨Carrier.internal c.call⟩
  else
    ⟨Carrier.external c.call⟩

/-- `Deferred::run(self)`: `(self.call)(self.task)` — the trampoline decodes the
payload back to the callable and invokes it. -/
def Deferred.run (d : Deferred σ) : σ → σ :=
  match d.carrier with
  | Carrier.internal f => f
  | Carrier.external f => f

/-- Whether the inline (in-payload) trampoline was chosen. -/
def Deferred.isInternal (d : Deferred σ) : Bool :=
  match d.carrier with
  | Carrier.internal _ => true
  | Carrier.external _ => false

/-! ### `protected` -/

/-- The outcome of running the closure `f` passed to `protected`: a normal return
with a value, or a panic that unwinds. -/
inductive Outcome (T : Type) where
  | ok (t : T)
  | panics
deriving DecidableEq

/-- `protected(f)` (both variants): `key.enter_critical(); let r = f(); key.exit_critical(); r`.
There is no drop guard around `f()`: when `f` panics, unwinding leaves the closure
body before the `exit_critical` statement, so only `enter_critical` has acted on the
local when the panic propagates. -/
def protectedRun (ge : Nat) (l : Local) (f : Outcome T) : Outcome T × Local :=
  let l1 := Local.enter_critical ge l
  match f with
  | Outcome.ok t => (Outcome.ok t, Local.exit_critical l1)
  | Outcome.panics => (Outcome.panics, l1)

/-! ### Steps and reachability -/

/-- Modify the `i`-th registered local (the source addresses a local through its
`Arc`/pointer; registry position stands in for identity). -/
def modifyIdx : List Local → Nat → (Local → Local) → List Local
  | [], _, _ => []
  | l :: ls, 0, f => f l :: ls
  | l :: ls, n + 1, f => l :: modifyIdx ls n f

/-- The operations of the engine, as a step relation on the whole state:
registration of a new participant (`TSLocal::new` / `add_local`), the four public
operations acting on a registered local, both variants' `collect`, eager
deregistration (x86_64 `TSLocal::drop`), and the owning thread of a table-variant
local going away (its `TSLocal` `Arc` dropped, deregistration itself being lazy). -/
inductive Step : GlobalState → GlobalState → Prop where
  | addLocal (s : GlobalState) :
      Step s { s with locals := s.locals ++ [Local.new] }
  | enter (s : GlobalState) (i : Nat) :
      Step s { s with locals := modifyIdx s.locals i (Local.enter_critical s.epoch) }
  | exit (s : GlobalState) (i : Nat) :
      Step s { s with locals := modifyIdx s.locals i Local.exit_critical }
  | pushDefer (s : GlobalState) (i id : Nat) :
      Step s { s with locals := modifyIdx s.locals i (fun l => Local.pushDefer s.epoch l id) }
  | collectX86 (s : GlobalState) :
      Step s (Global.collect s)
  | collectTable (s : GlobalState) :
      Step s (tableCollect s)
  | removeLocal (s : GlobalState) (i : Nat) :
      Step s { s with locals := removeIdx s.locals i }
  | disown (s : GlobalState) (i : Nat) :
      Step s { s with locals := modifyIdx s.locals i (fun l => { l with owned := false }) }

/-- States reachable from the freshly initialized engine. -/
inductive Reachable : GlobalState → Prop where
  | base : Reachable initState
  | step {s t : GlobalState} : Reachable s → Step s t → Reachable t

/-- The epoch invariant: the global epoch and every registered local's epoch are
in {0, 1, 2}. -/
def EpochInv (s : GlobalState) : Prop :=
  s.epoch < 3 ∧ ∀ l ∈ s.locals, l.epoch < 3

/-! ### Concrete scenario states -/

/-- Scenario S2 (claim C7), step 0: one fresh participant, global epoch 0. -/
def s7start : GlobalState :=
  { epoch := 0, locals := [Local.new], ranLog := [] }

/-- S2 after `enter_critical`. -/
def s7a : GlobalState :=
  { s7start with locals := modifyIdx s7start.locals 0 (Local.enter_critical s7start.epoch) }

/-- S2 after `defer` of carrier 42. -/
def s7b : GlobalState :=
  { s7a with locals := modifyIdx s7a.locals 0 (fun l => Local.pushDefer s7a.epoch l 42) }

/-- S2 after `exit_critical`: quiescent, carrier 42 parked in `deferred[0]`. -/
def s7c : GlobalState :=
  { s7b with locals := modifyIdx s7b.locals 0 Local.exit_critical }

/-- A local built up mid-teardown for claim C1: quiescent, one carrier (id 7)
still parked in `deferred[0]`. -/
def c1local : Local :=
  { active := 0, epoch := 0, q0 := [7], q1 := [], q2 := [], owned := true }

/-- Engine state for claim C1: one registered participant about to tear down. -/
def c1state : GlobalState :=
  { epoch := 0, locals := [c1local], ranLog := [] }

/-- Engine state for claim C3's counterexample: one quiescent participant with a
carrier (id 9) parked in the bucket the next pass drains (`deferred[1]`, epoch 0). -/
def c3state : GlobalState :=
  { epoch := 0,
    locals := [{ active := 0, epoch := 0, q0 := [], q1 := [9], q2 := [], owned := true }],
    ranLog := [] }

/-- Engine state for claim C4's witness: one participant inside a critical section
(`active = 1`) whose epoch (2) differs from the global epoch (0), so the scan gate
must abort the pass. -/
def c4state : GlobalState :=
  { epoch := 0,
    locals := [{ active := 1, epoch := 2, q0 := [], q1 := [], q2 := [], owned := true }],
    ranLog := [] }

/-- Engine state for claim C5: global epoch 0, carriers parked in `deferred[1]`
(id 5) and `deferred[2]` (id 6) of a quiescent participant, to tell apart which
bucket a pass drains. -/
def c5state : GlobalState :=
  { epoch := 0,
    locals := [{ active := 0, epoch := 0, q0 := [], q1 := [5], q2 := [6], owned := true }],
    ranLog := [] }

/-! ## Helper lemmas -/

theorem setBucket_epoch (l : Local) (i : Nat) (v : List Nat) :
    (l.setBucket i v).epoch = l.epoch := by
  rcases i with _ | _ | _ | i <;> rfl

theorem setBucket_owned (l : Local) (i : Nat) (v : List Nat) :
    (l.setBucket i v).owned = l.owned := by
  rcases i with _ | _ | _ | i <;> rfl

/-- The drain loop maps every local to the same local with bucket `next` emptied,
and runs, in registry order, the concatenation of all `next` buckets. -/
theorem drainAll_eq (next : Nat) (ls : List Local) :
    drainAll next ls
      = (ls.map (fun l => l.setBucket next []),
         (ls.map (fun l => l.getBucket next)).flatten) := by
  induction ls with
  | nil => rfl
  | cons l ls ih => simp [drainAll, drainLocal, ih]

theorem modifyIdx_forall (P : Local → Prop) (f : Local → Local) :
    ∀ (ls : List Local) (i : Nat), (∀ a ∈ ls, P a) → (∀ a ∈ ls, P (f a)) →
      ∀ x ∈ modifyIdx ls i f, P x := by
  intro ls
  induction ls with
  | nil => intro i _ _ x hx; simp [modifyIdx] at hx
  | cons a as ih =>
    intro i h hf x hx
    cases i with
    | zero =>
      simp only [modifyIdx, List.mem_cons] at hx
      rcases hx with rfl | hx
      · exact hf a (by simp)
      · exact h x (by simp [hx])
    | succ n =>
      simp only [modifyIdx, List.mem_cons] at hx
      rcases hx with rfl | hx
      · exact h x (by simp)
      · exact ih n (fun b hb => h b (by simp [hb])) (fun b hb => hf b (by simp [hb])) x hx

theorem removeIdx_subset :
    ∀ (ls : List Local) (i : Nat), ∀ x ∈ removeIdx ls i, x ∈ ls := by
  intro ls
  induction ls with
  | nil => intro i x hx; simp [removeIdx] at hx
  | cons a as ih =>
    intro i x hx
    cases i with
    | zero =>
      simp only [removeIdx] at hx
      exact List.mem_cons_of_mem a hx
    | succ n =>
      simp only [removeIdx, List.mem_cons] at hx
      rcases hx with rfl | hx
      · exact List.mem_cons_self x as
      · exact List.mem_cons_of_mem a (ih n x hx)

theorem tableRetain_subset :
    ∀ (ls : List Local), ∀ x ∈ (tableRetain ls).1, x ∈ ls := by
  intro ls
  induction ls with
  | nil => intro x hx; simp [tableRetain] at hx
  | cons a as ih =>
    intro x hx
    cases ha : a.owned <;> simp only [tableRetain, ha] at hx
    · simp only [Bool.false_eq_true, if_false] at hx
      exact List.mem_cons_of_mem a (ih x hx)
    · simp only [if_true, List.mem_cons] at hx
      rcases hx with rfl | hx
      · exact List.mem_cons_self x as
      · exact List.mem_cons_of_mem a (ih x hx)

/-- The wrapping `fetch_add(1)` followed by the wrapping `fetch_sub(1)` restores a
counter that was representable before. -/
theorem wrap_roundtrip {a : Nat} (h : a < WORD) :
    (WORD - 1 + (a + 1) % WORD) % WORD = a := by
  have hW : 0 < WORD := by decide
  rw [Nat.add_mod_mod]
  have h2 : WORD - 1 + (a + 1) = a + WORD := by omega
  rw [h2, Nat.add_mod_right, Nat.mod_eq_of_lt h]

theorem noRunUnderLocals_mapRun (b : List Nat) (t : List Ev) :
    noRunUnderLocals false (b.map Ev.runC ++ t) = noRunUnderLocals false t := by
  induction b with
  | nil => rfl
  | cons x xs ih => simp [noRunUnderLocals, ih]

theorem noRunUnderLocals_drain (next : Nat) :
    ∀ (ls : List Local) (i : Nat) (t : List Ev),
      noRunUnderLocals false (drainTrace next i ls ++ t) = noRunUnderLocals false t := by
  intro ls
  induction ls with
  | nil => intro i t; rfl
  | cons l ls ih =>
    intro i t
    simp only [drainTrace, List.cons_append, List.append_assoc, List.append_eq,
      noRunUnderLocals]
    rw [noRunUnderLocals_mapRun, ih]

theorem noRunUnderDef_mapRun (b : List Nat) (t : List Ev) :
    noRunUnderDef false (b.map Ev.runC ++ t) = noRunUnderDef false t := by
  induction b with
  | nil => rfl
  | cons x xs ih => simp [noRunUnderDef, ih]

theorem noRunUnderDef_drain (next : Nat) :
    ∀ (ls : List Local) (i : Nat) (t : List Ev),
      noRunUnderDef false (drainTrace next i ls ++ t) = noRunUnderDef false t := by
  intro ls
  induction ls with
  | nil => intro i t; rfl
  | cons l ls ih =>
    intro i t
    simp only [drainTrace, List.cons_append, List.append_assoc, List.append_eq,
      noRunUnderDef]
    rw [noRunUnderDef_mapRun, ih]

/-- When every entry that survives the drain is still owned, the retain sweep drops
nothing and emits no events. -/
theorem retainTrace_owned :
    ∀ (ls : List Local), (∀ l ∈ ls, l.owned = true) → ∀ i, retainTrace i ls = [] := by
  intro ls
  induction ls with
  | nil => intro _ i; rfl
  | cons a as ih =>
    intro h i
    have ha : a.owned = true := h a (List.mem_cons_self a as)
    simp only [retainTrace, ha, if_pos rfl, List.nil_append]
    exact ih (fun l hl => h l (List.mem_cons_of_mem a hl)) (i + 1)

/-- Each engine operation keeps the global and all local epochs below 3. -/
theorem step_preserves_inv {s t : GlobalState} (hs : EpochInv s) (st : Step s t) :
    EpochInv t := by
  obtain ⟨h1, h2⟩ := hs
  cases st with
  | addLocal =>
    refine ⟨h1, ?_⟩
    intro l hl
    rcases List.mem_append.mp hl with h | h
    · exact h2 l h
    · simp only [List.mem_singleton] at h
      subst h
      decide
  | enter i =>
    refine ⟨h1, ?_⟩
    refine modifyIdx_forall (fun l => l.epoch < 3) _ s.locals i h2 ?_
    intro a ha
    unfold Local.enter_critical
    by_cases h0 : a.active = 0 <;> simp only [h0, if_true, if_false, reduceIte]
    · exact h1
    · exact h2 a ha
  | exit i =>
    refine ⟨h1, ?_⟩
    refine modifyIdx_forall (fun l => l.epoch < 3) _ s.locals i h2 ?_
    intro a ha
    unfold Local.exit_critical
    exact h2 a ha
  | pushDefer i id =>
    refine ⟨h1, ?_⟩
    refine modifyIdx_forall (fun l => l.epoch < 3) _ s.locals i h2 ?_
    intro a ha
    unfold Local.pushDefer
    rw [setBucket_epoch]
    exact h2 a ha
  | collectX86 =>
    unfold Global.collect
    by_cases hg : scanGate s.epoch s.locals
    · simp only [hg, if_true, drainAll_eq]
      refine ⟨Nat.mod_lt _ (by norm_num), ?_⟩
      intro l hl
      obtain ⟨a, ha, rfl⟩ := List.mem_map.mp hl
      rw [setBucket_epoch]
      exact h2 a ha
    · simp only [hg, if_false, reduceIte]
      exact ⟨h1, h2⟩
  | collectTable =>
    unfold tableCollect
    by_cases hg : scanGate s.epoch s.locals
    · simp only [hg, if_true]
      refine ⟨Nat.mod_lt _ (by norm_num), ?_⟩
      intro l hl
      have hl2 := tableRetain_subset _ l hl
      rw [drainAll_eq] at hl2
      obtain ⟨a, ha, rfl⟩ := List.mem_map.mp hl2
      rw [setBucket_epoch]
      exact h2 a ha
    · simp only [hg, if_false, reduceIte]
      exact ⟨h1, h2⟩
  | removeLocal i =>
    refine ⟨h1, ?_⟩
    intro l hl
    exact h2 l (removeIdx_subset s.locals i l hl)
  | disown i =>
    refine ⟨h1, ?_⟩
    refine modifyIdx_forall (fun l => l.epoch < 3) _ s.locals i h2 ?_
    intro a ha
    exact h2 a ha

/-- Every reachable state satisfies the epoch invariant. -/
theorem reachable_inv {s : GlobalState} (h : Reachable s) : EpochInv s := by
  induction h with
  | base =>
    refine ⟨by decide, ?_⟩
    intro l hl
    simp [initState] at hl
  | step _ hst ih => exact step_preserves_inv ih hst

theorem enter_critical_active (ge : Nat) (l : Local) :
    (Local.enter_critical ge l).active = (l.active + 1) % WORD := by
  unfold Local.enter_critical
  by_cases h0 : l.active = 0 <;> simp [h0]

theorem exit_critical_active (l : Local) :
    (Local.exit_critical l).active = (WORD - 1 + l.active) % WORD := rfl

theorem exit_critical_epoch (l : Local) :
    (Local.exit_critical l).epoch = l.epoch := rfl

/-- Draining buckets does not change who owns an entry. -/
theorem drained_owned (next : Nat) (ls : List Local) (h : ∀ l ∈ ls, l.owned = true) :
    ∀ l ∈ (drainAll next ls).1, l.owned = true := by
  rw [drainAll_eq]
  intro l hl
  obtain ⟨a, ha, rfl⟩ := List.mem_map.mp hl
  rw [setBucket_owned]
  exact h a ha

/-! ## Claim theorems -/

/-- Claim C1 (code bug, x86_64 variant): on thread teardown `TSLocal::drop` only
deregisters the Local (`remove_local`); this variant's `Local` has no `Drop` impl,
so a carrier still parked in a queue (here id 7 in `deferred[0]`) is dropped
without its callable ever being invoked — the run log stays empty — contradicting
the spec's no-loss rule. The table variant's `Local::drop` (`Local.dropRun`) would
have executed it. -/
theorem x86_teardown_drops_parked :
    c1local.q0 = [7]
    ∧ (TSLocal.dropX86 c1state 0).ranLog = []
    ∧ (TSLocal.dropX86 c1state 0).locals = []
    ∧ Local.dropRun c1local = [7] := by decide

/-- Claim C2, counterexample: `protected` has no drop guard, so when `f` panics and
unwinds, `exit_critical` is skipped: starting from a quiescent local, the local's
`active` counter is left at 1, whereas running `exit_critical` after
`enter_critical` would have returned it to 0. -/
theorem protected_skips_exit_on_unwind :
    (protectedRun 0 Local.new (Outcome.panics : Outcome Nat)).2.active = 1
    ∧ (Local.exit_critical (Local.enter_critical 0 Local.new)).active = 0 := by decide

/-- Claim C2, amended: on the normal path `protected(f)` returns exactly the value
`f` returns and `exit_critical` restores `active`; but a panic in `f` that unwinds
propagates with only `enter_critical` performed, leaving `active` incremented. -/
theorem protected_normal_path {T : Type} (ge : Nat) (l : Local) (t : T)
    (h : l.active < WORD) :
    (protectedRun ge l (Outcome.ok t)).1 = Outcome.ok t
    ∧ (protectedRun ge l (Outcome.ok t)).2.active = l.active
    ∧ (protectedRun ge l (Outcome.panics : Outcome T)).2.active = (l.active + 1) % WORD := by
  refine ⟨rfl, ?_, ?_⟩
  · show (Local.exit_critical (Local.enter_critical ge l)).active = l.active
    rw [exit_critical_active, enter_critical_active]
    exact wrap_roundtrip h
  · show (Local.enter_critical ge l).active = (l.active + 1) % WORD
    exact enter_critical_active ge l

theorem protected_normal_path_witness :
    Local.new.active < WORD
    ∧ (protectedRun 0 Local.new (Outcome.ok (0 : Nat))).1 = Outcome.ok 0 :=
  ⟨by decide, (protected_normal_path 0 Local.new (0 : Nat) (by decide)).1⟩

/-- Claim C10: for a Local with `active = 0`, `exit_critical` wrap-decrements
`active` to `2^64 − 1`, a value greater than 0, so the scan gate afterwards treats
the thread as inside a critical section (aborting whenever the local's epoch lags
the global one); the x86_64 debug variant's check stores the wrapped value first
(`fetch_sub` returns the previous value) and only then reports the panic. -/
theorem exit_critical_wraps_at_zero (l : Local) (h : l.active = 0) :
    (Local.exit_critical l).active = 2 ^ 64 - 1
    ∧ 0 < (Local.exit_critical l).active
    ∧ (Local.exit_critical_dbg l).2 = true
    ∧ (Local.exit_critical_dbg l).1.active = 2 ^ 64 - 1
    ∧ ∀ ge, ge ≠ l.epoch → scanGate ge [Local.exit_critical l] = false := by
  have hact : (Local.exit_critical l).active = 2 ^ 64 - 1 := by
    rw [exit_critical_active, h, Nat.add_zero]
    exact Nat.mod_eq_of_lt (by decide)
  refine ⟨hact, ?_, ?_, ?_, ?_⟩
  · rw [hact]
    decide
  · show (l.active == 0) = true
    rw [h]
    rfl
  · show (WORD - 1 + l.active) % WORD = 2 ^ 64 - 1
    rw [h, Nat.add_zero]
    exact Nat.mod_eq_of_lt (by decide)
  · intro ge hge
    unfold scanGate
    simp only [List.all_cons, List.all_nil, Bool.and_true, Bool.not_eq_true',
      Bool.and_eq_false_iff, decide_eq_false_iff_not]
    rw [hact, exit_critical_epoch]
    simp [hge, Ne.symm hge]

theorem exit_critical_wraps_at_zero_witness :
    Local.new.active = 0
    ∧ (Local.exit_critical Local.new).active = 2 ^ 64 - 1 :=
  ⟨rfl, (exit_critical_wraps_at_zero Local.new rfl).1⟩

/-- Claim C3, counterexample: in the table variant's `collect` the `locals` mutex
guard lives to the end of the function (the final `locals.retain` still uses it),
so a drained carrier runs while the Global locals mutex is held. -/
theorem table_collect_runs_under_locals_mutex :
    noRunUnderLocals false (tableCollectTrace c3state) = false := by decide

/-- Claim C3, amended: in the x86_64 variant no carrier runs while the Global
locals mutex is held (it is dropped before the epoch advances), and no carrier of
the drain loop runs under a Local's deferred mutex; in the table variant the
deferred-mutex part still holds for a pass whose entries are all owned, but the
locals mutex stays held while carriers run. -/
theorem collect_runs_outside_mutexes (s : GlobalState) :
    noRunUnderLocals false (x86CollectTrace s) = true
    ∧ noRunUnderDef false (x86CollectTrace s) = true
    ∧ ((∀ l ∈ s.locals, l.owned = true) →
        noRunUnderDef false (tableCollectTrace s) = true) := by
  refine ⟨?_, ?_, ?_⟩
  · unfold x86CollectTrace
    by_cases hg : scanGate s.epoch s.locals <;>
      simp only [hg, if_true, if_false, reduceIte]
    · show noRunUnderLocals false
        (Ev.lockLocals :: Ev.unlockLocals :: Ev.advance ::
          drainTrace (increment_epoch s.epoch) 0 s.locals) = true
      simp only [noRunUnderLocals]
      have h := noRunUnderLocals_drain (increment_epoch s.epoch) s.locals 0 []
      rw [List.append_nil] at h
      rw [h]
      rfl
    · rfl
  · unfold x86CollectTrace
    by_cases hg : scanGate s.epoch s.locals <;>
      simp only [hg, if_true, if_false, reduceIte]
    · show noRunUnderDef false
        (Ev.lockLocals :: Ev.unlockLocals :: Ev.advance ::
          drainTrace (increment_epoch s.epoch) 0 s.locals) = true
      simp only [noRunUnderDef]
      have h := noRunUnderDef_drain (increment_epoch s.epoch) s.locals 0 []
      rw [List.append_nil] at h
      rw [h]
      rfl
    · rfl
  · intro hown
    unfold tableCollectTrace
    by_cases hg : scanGate s.epoch s.locals <;>
      simp only [hg, if_true, if_false, reduceIte]
    · have hr : retainTrace 0 (drainAll (increment_epoch s.epoch) s.locals).1 = [] :=
        retainTrace_owned _ (drained_owned _ _ hown) 0
      rw [hr, List.append_nil]
      show noRunUnderDef false
        (Ev.force :: Ev.lockLocals :: Ev.advance ::
          (drainTrace (increment_epoch s.epoch) 0 s.locals ++ [Ev.unlockLocals])) = true
      simp only [noRunUnderDef]
      rw [noRunUnderDef_drain]
      rfl
    · rfl

theorem collect_runs_outside_mutexes_witness :
    (∀ l ∈ c5state.locals, l.owned = true)
    ∧ noRunUnderDef false (tableCollectTrace c5state) = true :=
  ⟨by decide, (collect_runs_outside_mutexes c5state).2.2 (by decide)⟩

/-- Claim C4: `collect` advances the epoch only when, at scan time, every
registered Local is quiescent (`active = 0`) or carries the epoch observed at scan
start; and when some Local has `active > 0` with a different epoch, the attempt
returns the state unchanged — the epoch and every deferred queue are untouched. -/
theorem collect_gate_only_when_quiescent (s : GlobalState) :
    ((Global.collect s).epoch ≠ s.epoch →
      ∀ l ∈ s.locals, l.active = 0 ∨ l.epoch = s.epoch)
    ∧ ((∃ l ∈ s.locals, 0 < l.active ∧ l.epoch ≠ s.epoch) → Global.collect s = s) := by
  constructor
  · intro hne l hl
    by_cases hg : scanGate s.epoch s.locals
    · have hx := List.all_eq_true.mp hg l hl
      simp only [Bool.not_eq_true', Bool.and_eq_false_iff,
        decide_eq_false_iff_not] at hx
      rcases hx with hx | hx
      · left
        omega
      · right
        exact not_not.mp hx
    · exact absurd (by unfold Global.collect; simp [hg]) hne
  · rintro ⟨l, hl, ha, he⟩
    have hg : scanGate s.epoch s.locals = false := by
      cases hb : scanGate s.epoch s.locals
      · rfl
      · exfalso
        have hx := List.all_eq_true.mp hb l hl
        simp only [Bool.not_eq_true', Bool.and_eq_false_iff,
          decide_eq_false_iff_not] at hx
        rcases hx with hx | hx
        · omega
        · exact hx he
    unfold Global.collect
    simp [hg]

theorem collect_gate_only_when_quiescent_witness :
    (∃ l ∈ c4state.locals, 0 < l.active ∧ l.epoch ≠ c4state.epoch)
    ∧ Global.collect c4state = c4state :=
  ⟨by decide, (collect_gate_only_when_quiescent c4state).2 (by decide)⟩

/-- Claim C5, counterexample: at observed epoch `E₀ = 0` a passing `collect`
drains and runs bucket 1 (`E₁ = (E₀ + 1) mod 3`), not bucket
`E₀ − 1 mod 3 = 2`, whose carrier is still parked afterwards — the claim's
"`E₁` equals `E₀ − 1 mod 3`" does not hold. -/
theorem collect_drained_bucket_not_epoch_minus_one :
    (Global.collect c5state).ranLog = [5]
    ∧ (∀ l ∈ (Global.collect c5state).locals,
        l.getBucket ((c5state.epoch + 3 - 1) % 3) = [6])
    ∧ (c5state.epoch + 3 - 1) % 3 = 2
    ∧ (c5state.epoch + 1) % 3 = 1 := by decide

/-- Claim C5, amended: when the gate passes at observed epoch `E₀`, `collect`
advances the global epoch to `E₁ = (E₀ + 1) mod 3` and drains exactly the bucket
with index `E₁` from every Local (equivalently `E₀ − 2 mod 3`, the oldest of the
three), running its carriers and leaving it empty. -/
theorem collect_drains_successor_bucket (s : GlobalState)
    (h : scanGate s.epoch s.locals = true) :
    (Global.collect s).epoch = (s.epoch + 1) % 3
    ∧ (Global.collect s).ranLog
        = s.ranLog ++ (s.locals.map (fun l => l.getBucket ((s.epoch + 1) % 3))).flatten
    ∧ (Global.collect s).locals
        = s.locals.map (fun l => l.setBucket ((s.epoch + 1) % 3) []) := by
  unfold Global.collect increment_epoch
  simp [h, drainAll_eq]

theorem collect_drains_successor_bucket_witness :
    scanGate c5state.epoch c5state.locals = true
    ∧ (Global.collect c5state).epoch = (c5state.epoch + 1) % 3 :=
  ⟨by decide, (collect_drains_successor_bucket c5state (by decide)).1⟩

/-- Claim C6: for any callable, running the `Deferred` built from it has exactly
the callable's observable effect — whatever its size and alignment, so in
particular for sizes 0, 1, 31, 32 and larger and for any alignment — and the
inline (in-payload) carrier is chosen exactly when `size_of < 32` and
`align_of ≤ 8`, the payload's size and alignment, with the boxed carrier
otherwise. -/
theorem deferred_roundtrip {σ : Type} (c : Callable σ) (s : σ) :
    (Deferred.new c).run s = c.call s
    ∧ ((Deferred.new c).isInternal = true
        ↔ c.size < payloadSize ∧ c.align ≤ payloadAlign) := by
  unfold Deferred.new
  by_cases h : c.size < payloadSize ∧ c.align ≤ payloadAlign <;>
    simp [h, Deferred.run, Deferred.isInternal]

/-- Claim C7 (scenario S2): one participant enters a critical section at global
epoch 0, defers carrier 42, exits; then three `collect` calls follow. The gate
passes on each call and the epoch steps 0 → 1 → 2 → 0; the carrier has not run
after the first call (so not before the second), and has run after the third. -/
theorem single_thread_defer_collect_cycle :
    42 ∉ (Global.collect s7c).ranLog
    ∧ 42 ∉ (Global.collect (Global.collect s7c)).ranLog
    ∧ (Global.collect (Global.collect (Global.collect s7c))).ranLog = [42]
    ∧ (Global.collect s7c).epoch = 1
    ∧ (Global.collect (Global.collect s7c)).epoch = 2
    ∧ (Global.collect (Global.collect (Global.collect s7c))).epoch = 0
    ∧ scanGate s7c.epoch s7c.locals = true
    ∧ scanGate (Global.collect s7c).epoch (Global.collect s7c).locals = true
    ∧ scanGate (Global.collect (Global.collect s7c)).epoch
        (Global.collect (Global.collect s7c)).locals = true := by decide

/-- Claim C8: in every reachable engine state the global epoch and every
registered Local's epoch are in {0, 1, 2} (each operation preserves this), so the
bucket index `global_epoch` used by `defer` and the index `(epoch + 1) % 3` used
by `collect` both stay inside the three-element `deferred` array. -/
theorem epoch_three_bound (s : GlobalState) (h : Reachable s) :
    s.epoch < 3 ∧ (∀ l ∈ s.locals, l.epoch < 3) ∧ increment_epoch s.epoch < 3 := by
  obtain ⟨h1, h2⟩ := reachable_inv h
  exact ⟨h1, h2, Nat.mod_lt _ (by norm_num)⟩

theorem epoch_three_bound_witness :
    initState.epoch < 3 ∧ (∀ l ∈ initState.locals, l.epoch < 3)
    ∧ increment_epoch initState.epoch < 3 :=
  epoch_three_bound initState Reachable.base

/-- Claim C9, counterexample: the table variant's `collect` begins with
`PARTICIPANT_HANDLE.with(force)`, so its first invocation from the guardian
thread creates and registers a Local on the guardian's behalf: starting from an
empty registry, one guardian iteration leaves a registered Local. -/
theorem table_collect_registers_guardian_local :
    (guardianStepTable (false, initState)).1 = true
    ∧ (guardianStepTable (false, initState)).2.locals.length = 1
    ∧ initState.locals.length = 0 := by decide

/-- Claim C9, amended: an iteration of the guardian loop only sleeps and invokes
`Global.collect`; in the x86_64 variant `collect` does not touch the calling
thread's participant handle — the caller's registration state is unchanged and no
Local is added to or removed from the registry —, while the table variant's
`collect` registers a Local for the guardian thread on its first call. -/
theorem guardian_only_collects (b : Bool) (s : GlobalState) :
    guardianStepX86 s = Global.collect s
    ∧ (x86CollectEntry (b, s)).1 = b
    ∧ (x86CollectEntry (b, s)).2.locals.length = s.locals.length := by
  refine ⟨rfl, rfl, ?_⟩
  show (Global.collect s).locals.length = s.locals.length
  unfold Global.collect
  by_cases hg : scanGate s.epoch s.locals <;> simp [hg, drainAll_eq]

end Recl
